import Mathlib

/-!
Verification of the platform-adapter and aggregation layer of the
`discussing` repository (`src/external-comments/src/utils/fetch-comments.ts`).

The TypeScript source is shallowly embedded: JavaScript strings are modelled
as Lean `String` / `List Char`, the sequential `String.prototype.replace`
calls of `decodeHtmlEntities` are modelled as character-level scanners with
the same leftmost, non-overlapping, no-rescan semantics as a global regex
replace, network access is modelled as an oracle from request URL to an
outcome, and the `try/catch` blocks become `match`es on that outcome.
-/

namespace Discussing

/-! ## Text normalizer: `decodeHtmlEntities`

The source applies eight `.replace` calls in a fixed order:
`&#x27;` → apostrophe, `&#x2F;` → `/`, `&quot;` → `"`, `&amp;` → `&`,
`&lt;` → `<`, `&gt;` → `>`, then the generic decimal escapes
`/&#(\d+);/g` and the generic hexadecimal escapes `/&#x([0-9a-fA-F]+);/g`,
each replaced by `String.fromCharCode` of the escape's number.
Each fixed literal replacement is a structural scanner over the character
list: at each position, if the literal pattern starts here the replacement
is emitted and scanning resumes after the match (the replacement text is
not rescanned), otherwise one character is emitted. -/

/-- Model of the ECMAScript `String.fromCharCode` applied to an exact
nonnegative integer: the result is the UTF-16 code unit of value `n % 2^16`.
(`Char.ofNat` maps the—here unused—surrogate range to NUL; claims about
surrogate code units carry a `Nat.isValidChar` hypothesis.) -/
def fromCharCode (n : Nat) : Char := Char.ofNat (n % 65536)

/-- `.replace(/&#x27;/g, "'")`. -/
def replaceX27 : List Char → List Char
  | '&' :: '#' :: 'x' :: '2' :: '7' :: ';' :: rest => Char.ofNat 39 :: replaceX27 rest
  | c :: rest => c :: replaceX27 rest
  | [] => []

/-- `.replace(/&#x2F;/g, "/")`. -/
def replaceX2F : List Char → List Char
  | '&' :: '#' :: 'x' :: '2' :: 'F' :: ';' :: rest => '/' :: replaceX2F rest
  | c :: rest => c :: replaceX2F rest
  | [] => []

/-- `.replace(/&quot;/g, '"')`. -/
def replaceQuot : List Char → List Char
  | '&' :: 'q' :: 'u' :: 'o' :: 't' :: ';' :: rest => '"' :: replaceQuot rest
  | c :: rest => c :: replaceQuot rest
  | [] => []

/-- `.replace(/&amp;/g, "&")`. -/
def replaceAmp : List Char → List Char
  | '&' :: 'a' :: 'm' :: 'p' :: ';' :: rest => '&' :: replaceAmp rest
  | c :: rest => c :: replaceAmp rest
  | [] => []

/-- `.replace(/&lt;/g, "<")`. -/
def replaceLt : List Char → List Char
  | '&' :: 'l' :: 't' :: ';' :: rest => '<' :: replaceLt rest
  | c :: rest => c :: replaceLt rest
  | [] => []

/-- `.replace(/&gt;/g, ">")`. -/
def replaceGt : List Char → List Char
  | '&' :: 'g' :: 't' :: ';' :: rest => '>' :: replaceGt rest
  | c :: rest => c :: replaceGt rest
  | [] => []

/-- Numeric value of a decimal digit string (the coercion of the captured
digit group to a number inside `String.fromCharCode(dec)`). -/
def digitsVal (ds : List Char) : Nat :=
  ds.foldl (fun acc c => acc * 10 + (c.toNat - 48)) 0

/-- Numeric value of a single hexadecimal digit. -/
def hexDigitVal (c : Char) : Nat :=
  if c.isDigit then c.toNat - 48
  else if 97 ≤ c.toNat then c.toNat - 87
  else c.toNat - 55

/-- Is `c` one of `[0-9a-fA-F]` (the character class of the hex-escape regex)? -/
def isHexDigit (c : Char) : Bool :=
  c.isDigit || ('a' ≤ c && c ≤ 'f') || ('A' ≤ c && c ≤ 'F')

/-- Numeric value of a hexadecimal digit string (`parseInt(hex, 16)`). -/
def hexVal (hs : List Char) : Nat :=
  hs.foldl (fun acc c => acc * 16 + hexDigitVal c) 0

/-- Scanner state for the decimal-escape replacement `/&#(\d+);/g`:
either scanning normally, or holding a pending `&`, or holding a pending
`&#` followed by the digits read so far. -/
inductive DecState where
  | normal
  | amp
  | ampHash (acc : List Char)

/-- `.replace(/&#(\d+);/g, (m, dec) => String.fromCharCode(dec))` as a
character-level state machine.  A failed partial match is flushed verbatim
and scanning resumes exactly where the regex engine would retry: a fresh
match can only start at a later `&`. -/
def decScan : DecState → List Char → List Char
  | .normal, [] => []
  | .normal, c :: rest => if c = '&' then decScan .amp rest else c :: decScan .normal rest
  | .amp, [] => ['&']
  | .amp, c :: rest =>
    if c = '#' then decScan (.ampHash []) rest
    else if c = '&' then '&' :: decScan .amp rest
    else '&' :: c :: decScan .normal rest
  | .ampHash acc, [] => '&' :: '#' :: acc
  | .ampHash acc, c :: rest =>
    if c.isDigit then decScan (.ampHash (acc ++ [c])) rest
    else if c = ';' && !acc.isEmpty then fromCharCode (digitsVal acc) :: decScan .normal rest
    else if c = '&' then '&' :: '#' :: (acc ++ decScan .amp rest)
    else '&' :: '#' :: (acc ++ (c :: decScan .normal rest))

/-- Scanner state for the hexadecimal-escape replacement
`/&#x([0-9a-fA-F]+);/g`. -/
inductive HexState where
  | normal
  | amp
  | ampHash
  | ampHashX (acc : List Char)

/-- `.replace(/&#x([0-9a-fA-F]+);/g, (m, hex) => String.fromCharCode(parseInt(hex, 16)))`
as a character-level state machine; same conventions as `decScan`. -/
def hexScan : HexState → List Char → List Char
  | .normal, [] => []
  | .normal, c :: rest => if c = '&' then hexScan .amp rest else c :: hexScan .normal rest
  | .amp, [] => ['&']
  | .amp, c :: rest =>
    if c = '#' then hexScan .ampHash rest
    else if c = '&' then '&' :: hexScan .amp rest
    else '&' :: c :: hexScan .normal rest
  | .ampHash, [] => ['&', '#']
  | .ampHash, c :: rest =>
    if c = 'x' then hexScan (.ampHashX []) rest
    else if c = '&' then '&' :: '#' :: hexScan .amp rest
    else '&' :: '#' :: c :: hexScan .normal rest
  | .ampHashX acc, [] => '&' :: '#' :: 'x' :: acc
  | .ampHashX acc, c :: rest =>
    if isHexDigit c then hexScan (.ampHashX (acc ++ [c])) rest
    else if c = ';' && !acc.isEmpty then fromCharCode (hexVal acc) :: hexScan .normal rest
    else if c = '&' then '&' :: '#' :: 'x' :: (acc ++ hexScan .amp rest)
    else '&' :: '#' :: 'x' :: (acc ++ (c :: hexScan .normal rest))

/-- `decodeHtmlEntities` from `fetch-comments.ts`: the eight replacements
composed in source order. -/
def decodeHtmlEntities (text : String) : String :=
  String.mk
    (hexScan .normal
      (decScan .normal
        (replaceGt (replaceLt (replaceAmp (replaceQuot (replaceX2F (replaceX27 text.data))))))))

/-! ## The canonical `Comment` data model (`src/types.ts`)

`Comment` is recursive through the optional `replies` field, so it is an
inductive rather than a structure; the projections below recover the named
fields.  `Option` distinguishes a key that the producing adapter sets from
one it omits. -/

/-- The canonical comment-tree node of `src/types.ts`. -/
inductive Comment where
  | mk (id : String) (author : String) (content : String) (timestamp : String)
       (replies : Option (List Comment)) (votes : Option Int)
       (platform : String) (avatar : Option String)

def Comment.id : Comment → String
  | .mk i _ _ _ _ _ _ _ => i

def Comment.author : Comment → String
  | .mk _ a _ _ _ _ _ _ => a

def Comment.content : Comment → String
  | .mk _ _ c _ _ _ _ _ => c

def Comment.timestamp : Comment → String
  | .mk _ _ _ t _ _ _ _ => t

def Comment.replies : Comment → Option (List Comment)
  | .mk _ _ _ _ r _ _ _ => r

def Comment.votes : Comment → Option Int
  | .mk _ _ _ _ _ v _ _ => v

def Comment.platform : Comment → String
  | .mk _ _ _ _ _ _ p _ => p

def Comment.avatar : Comment → Option String
  | .mk _ _ _ _ _ _ _ a => a

/-- The discussion descriptor of `src/types.ts`.  The TypeScript `platform`
field is the union `'v2ex' | 'reddit' | 'hackernews'`, but the router's
`default` branch is reachable from untyped JavaScript callers, so the tag is
modelled as an arbitrary string. -/
structure ExternalDiscussion where
  platform : String
  url : String

/-- Outcome of one `fetch` + body decode, as distinguished by the adapters:
the promise rejects (`networkError`), `response.ok` is false (`httpError`),
`response.json()` rejects or the body lacks the expected structure
(`malformed`), or a body of the expected shape `α` is obtained (`ok`). -/
inductive FetchOutcome (α : Type) where
  | networkError
  | httpError
  | malformed
  | ok (data : α)

/-- Does the outcome carry a successfully decoded body? -/
def FetchOutcome.isOk {α : Type} : FetchOutcome α → Bool
  | .ok _ => true
  | _ => false

/-! ## Timestamp conversion

The adapters convert epoch seconds with `new Date(seconds * 1000).toISOString()`.
The model below implements ECMAScript `Date.prototype.toISOString` for
nonnegative epoch milliseconds (proleptic Gregorian calendar, UTC,
`YYYY-MM-DDTHH:mm:ss.sssZ`). -/

/-- Gregorian leap-year predicate. -/
def isLeapYear (y : Nat) : Bool :=
  (y % 4 == 0 && y % 100 != 0) || y % 400 == 0

/-- Number of days in year `y`. -/
def daysInYear (y : Nat) : Nat := if isLeapYear y then 366 else 365

/-- Month lengths of year `y`, January first. -/
def monthLengths (y : Nat) : List Nat :=
  [31, if isLeapYear y then 29 else 28, 31, 30, 31, 30, 31, 31, 30, 31, 30, 31]

/-- Resolve a day count (days since 1970-01-01) to `(year, day of year)`.
The first argument is recursion fuel; every step consumes at least 365 days,
so any fuel of at least `days` steps yields the fixed point. -/
def findYear : Nat → Nat → Nat → Nat × Nat
  | 0, y, d => (y, d)
  | fuel + 1, y, d =>
    if d < daysInYear y then (y, d) else findYear fuel (y + 1) (d - daysInYear y)

/-- Resolve a zero-based day of year to `(month, day of month)`, both
zero-based, by walking the month lengths. -/
def findMonth : List Nat → Nat → Nat → Nat × Nat
  | [], m, d => (m, d)
  | len :: rest, m, d => if d < len then (m, d) else findMonth rest (m + 1) (d - len)

/-- Zero-pad the decimal rendering of `n` to width `w`. -/
def padZero (w : Nat) (n : Nat) : String :=
  String.mk (List.replicate (w - (toString n).length) '0') ++ toString n

/-- `new Date(ms).toISOString()` for nonnegative epoch milliseconds. -/
def toISOString (ms : Nat) : String :=
  let days := ms / 86400000
  let msOfDay := ms % 86400000
  let yd := findYear (days + 1) 1970 days
  let md := findMonth (monthLengths yd.1) 0 yd.2
  padZero 4 yd.1 ++ "-" ++ padZero 2 (md.1 + 1) ++ "-" ++ padZero 2 (md.2 + 1) ++ "T" ++
    padZero 2 (msOfDay / 3600000) ++ ":" ++ padZero 2 (msOfDay % 3600000 / 60000) ++ ":" ++
    padZero 2 (msOfDay % 60000 / 1000) ++ "." ++ padZero 3 (ms % 1000) ++ "Z"

/-! ## JavaScript falsiness helpers -/

/-- `o || dflt` for an optional string: `undefined`/`null` and the empty
string are falsy. -/
def jsOrStr (o : Option String) (dflt : String) : String :=
  match o with
  | some s => if s == "" then dflt else s
  | none => dflt

/-- Truthiness of an optional string (`if (child.text)`). -/
def jsTruthyStr (o : Option String) : Bool :=
  match o with
  | some s => !(s == "")
  | none => false

/-! ## Identifier extraction

`url.match(/\/t\/(\d+)/)?.[1]` and `url.match(/item\?id=(\d+)/)?.[1]`:
scan left to right; at the first position where the literal part of the
pattern is followed by at least one digit, the capture is the maximal digit
run (the group is last in the pattern, so greedy `\d+` never backtracks);
when the literal matches but no digit follows, the regex engine retries
from the next position. -/

/-- Scanner for `/\/t\/(\d+)/`: returns the first capture, if any. -/
def extractTopicIdAux : List Char → Option (List Char)
  | [] => none
  | c :: rest =>
    if ['/', 't', '/'].isPrefixOf (c :: rest) then
      if (((c :: rest).drop 3).takeWhile Char.isDigit).isEmpty then extractTopicIdAux rest
      else some (((c :: rest).drop 3).takeWhile Char.isDigit)
    else extractTopicIdAux rest

/-- `url.match(/\/t\/(\d+)/)?.[1]` of the V2EX adapter. -/
def extractTopicId (url : String) : Option String :=
  (extractTopicIdAux url.data).map String.mk

/-- Scanner for `/item\?id=(\d+)/`: returns the first capture, if any. -/
def extractItemIdAux : List Char → Option (List Char)
  | [] => none
  | c :: rest =>
    if ['i', 't', 'e', 'm', '?', 'i', 'd', '='].isPrefixOf (c :: rest) then
      if (((c :: rest).drop 8).takeWhile Char.isDigit).isEmpty then extractItemIdAux rest
      else some (((c :: rest).drop 8).takeWhile Char.isDigit)
    else extractItemIdAux rest

/-- `url.match(/item\?id=(\d+)/)?.[1]` of the Hacker News adapter. -/
def extractItemId (url : String) : Option String :=
  (extractItemIdAux url.data).map String.mk

/-! ## V2EX adapter (`fetchV2exComments`)

The reply records read from the V2EX API.  `member` is optional and read
with `?.`; `avatar_mini` is optional inside it. -/

/-- The nested `member` record of a V2EX reply. -/
structure V2exMember where
  username : String
  avatar_mini : Option String

/-- One V2EX reply record, with the fields the adapter reads. -/
structure V2exItem where
  id : Nat
  member : Option V2exMember
  content : String
  created : Nat

/-- The API URL built from the extracted topic id. -/
def v2exApiUrl (topicId : String) : String :=
  "https://www.v2ex.com/api/replies/show.json?topic_id=" ++ topicId

/-- The mapping applied to each V2EX reply record: `id` is prefixed with
`v2ex-`, `author` falls back to `Anonymous`, `created` epoch seconds become
an ISO timestamp, `platform` is the literal `v2ex`, `avatar` is the
optional `avatar_mini`; no `votes` and no `replies` key is set. -/
def v2exItemComment (item : V2exItem) : Comment :=
  Comment.mk ("v2ex-" ++ toString item.id)
    (jsOrStr (item.member.map V2exMember.username) "Anonymous")
    item.content
    (toISOString (item.created * 1000))
    none
    none
    "v2ex"
    (item.member.bind V2exMember.avatar_mini)

/-- `fetchV2exComments`: extract the topic id (a failed extraction throws
and is caught, yielding `[]` with no request); call the API; any rejection,
non-ok status or malformed body is caught, yielding `[]`; a well-formed
array is mapped to comments.  `net` is the network oracle from request URL
to outcome. -/
def fetchV2exComments (url : String) (net : String → FetchOutcome (List V2exItem)) :
    List Comment :=
  match extractTopicId url with
  | none => []
  | some topicId =>
    match net (v2exApiUrl topicId) with
    | .ok data => data.map v2exItemComment
    | _ => []

/-- The request URLs `fetchV2exComments url` issues: none when extraction
fails (the guard throws before `fetch`), otherwise exactly the API URL. -/
def fetchV2exRequests (url : String) : List String :=
  match extractTopicId url with
  | none => []
  | some topicId => [v2exApiUrl topicId]

/-! ## Reddit adapter (`fetchRedditComments`) -/

/-- One record of a Reddit listing, with the fields the adapter reads:
`kind` discriminates comments (`t1`) from other kinds, and the optional
`replies` models the presence of `item.data.replies?.data?.children`. -/
inductive RedditItem where
  | mk (kind : String) (id : String) (author : String) (body : String)
       (created_utc : Nat) (score : Int) (replies : Option (List RedditItem))

def RedditItem.kind : RedditItem → String
  | .mk k _ _ _ _ _ _ => k

def RedditItem.id : RedditItem → String
  | .mk _ i _ _ _ _ _ => i

def RedditItem.author : RedditItem → String
  | .mk _ _ a _ _ _ _ => a

def RedditItem.body : RedditItem → String
  | .mk _ _ _ b _ _ _ => b

def RedditItem.created_utc : RedditItem → Nat
  | .mk _ _ _ _ c _ _ => c

def RedditItem.score : RedditItem → Int
  | .mk _ _ _ _ _ s _ => s

def RedditItem.replies : RedditItem → Option (List RedditItem)
  | .mk _ _ _ _ _ _ r => r

/-- `url.replace(/\/$/, '') + '.json'`: strip one trailing slash, append
`.json`. -/
def redditJsonUrl (url : String) : String :=
  (match url.data.getLast? with
   | some '/' => String.mk url.data.dropLast
   | _ => url) ++ ".json"

mutual

/-- The per-record branch of `parseRedditComments` (the body of its `.map`):
`id` is `reddit-` plus the native id, `timestamp` converts `created_utc`
epoch seconds, `votes` is the score, `platform` is the literal `reddit`,
and `replies` recurses into the nested listing when present, else `[]`. -/
def redditItemComment : RedditItem → Comment
  | .mk _kind id author body created_utc score replies =>
    Comment.mk ("reddit-" ++ id) author body (toISOString (created_utc * 1000))
      (some (parseRedditReplies replies)) (some score) "reddit" none

/-- `item.data.replies?.data?.children ? parseRedditComments(...) : []`. -/
def parseRedditReplies : Option (List RedditItem) → List Comment
  | some children => parseRedditComments children
  | none => []

/-- `parseRedditComments`: keep exactly the records of kind `t1` and map
each through `redditItemComment` (the source's `.filter(...).map(...)`,
fused into one structural pass). -/
def parseRedditComments : List RedditItem → List Comment
  | [] => []
  | item :: rest =>
    if item.kind == "t1" then redditItemComment item :: parseRedditComments rest
    else parseRedditComments rest

end

/-- `fetchRedditComments`: build the `.json` URL, call it; on success the
payload models `data[1]?.data?.children` (absent ⇒ `|| []` supplies the
empty listing); any failure is caught, yielding `[]`. -/
def fetchRedditComments (url : String)
    (net : String → FetchOutcome (Option (List RedditItem))) : List Comment :=
  match net (redditJsonUrl url) with
  | .ok commentsData => parseRedditComments (commentsData.getD [])
  | _ => []

/-! ## Hacker News adapter (`fetchHackerNewsComments`) -/

/-- One item of the Algolia HN item tree, with the fields the adapter
reads.  `text` and `author` may be `null`/absent; `children` is optional
(`if (item.children)` skips a missing array, while an empty array is truthy
and yields no comments). -/
inductive HNItem where
  | mk (id : Nat) (author : Option String) (text : Option String)
       (created_at : String) (points : Option Int) (children : Option (List HNItem))

def HNItem.id : HNItem → Nat
  | .mk i _ _ _ _ _ => i

def HNItem.author : HNItem → Option String
  | .mk _ a _ _ _ _ => a

def HNItem.text : HNItem → Option String
  | .mk _ _ t _ _ _ => t

def HNItem.created_at : HNItem → String
  | .mk _ _ _ c _ _ => c

def HNItem.points : HNItem → Option Int
  | .mk _ _ _ _ p _ => p

def HNItem.children : HNItem → Option (List HNItem)
  | .mk _ _ _ _ _ c => c

/-- The API URL built from the extracted item id. -/
def hnApiUrl (itemId : String) : String :=
  "https://hn.algolia.com/api/v1/items/" ++ itemId

mutual

/-- The comment pushed for a text-bearing child: `id` is `hn-` plus the
native id, `author` falls back to `Anonymous`, `content` is the decoded
text, `timestamp` is `created_at` verbatim, `votes` is the optional point
count, `platform` is the literal `hackernews`, and `replies` walks the
child's own children. -/
def hnItemComment : HNItem → Comment
  | .mk id author text created_at points children =>
    Comment.mk ("hn-" ++ toString id) (jsOrStr author "Anonymous")
      (decodeHtmlEntities (text.getD "")) created_at
      (some (parseHNChildren children)) points "hackernews" none

/-- The `if (item.children)` guard of `parseHNComments`. -/
def parseHNChildren : Option (List HNItem) → List Comment
  | none => []
  | some items => parseHNList items

/-- The `for (const child of item.children)` loop of `parseHNComments`:
a child is pushed only when `child.text` is truthy; a textless child is
skipped without walking its own children. -/
def parseHNList : List HNItem → List Comment
  | [] => []
  | child :: rest =>
    if jsTruthyStr child.text then hnItemComment child :: parseHNList rest
    else parseHNList rest

/-- `parseRedditComments`'s HN counterpart `parseHNComments`, applied to the
item-detail response and recursively (`replies: parseHNComments(child)`) to
each pushed child. -/
def parseHNComments : HNItem → List Comment
  | .mk _ _ _ _ _ children => parseHNChildren children

end

/-- `fetchHackerNewsComments`: extract the item id or fail empty with no
request; call the item endpoint; failures are caught, yielding `[]`. -/
def fetchHackerNewsComments (url : String) (net : String → FetchOutcome HNItem) :
    List Comment :=
  match extractItemId url with
  | none => []
  | some itemId =>
    match net (hnApiUrl itemId) with
    | .ok data => parseHNComments data
    | _ => []

/-- The request URLs `fetchHackerNewsComments url` issues. -/
def fetchHackerNewsRequests (url : String) : List String :=
  match extractItemId url with
  | none => []
  | some itemId => [hnApiUrl itemId]

/-! ## Router and aggregator -/

/-- The three per-endpoint-shape network oracles, together standing for the
global `fetch`. -/
structure Network where
  v2ex : String → FetchOutcome (List V2exItem)
  reddit : String → FetchOutcome (Option (List RedditItem))
  hackernews : String → FetchOutcome HNItem

/-- `fetchCommentsForPlatform`: dispatch on the platform tag; the `default`
branch logs a warning and returns `[]`. -/
def fetchCommentsForPlatform (discussion : ExternalDiscussion) (net : Network) :
    List Comment :=
  match discussion.platform with
  | "v2ex" => fetchV2exComments discussion.url net.v2ex
  | "reddit" => fetchRedditComments discussion.url net.reddit
  | "hackernews" => fetchHackerNewsComments discussion.url net.hackernews
  | _ => []

/-- One outcome of `Promise.allSettled`. -/
inductive SettledResult (α : Type) where
  | fulfilled (value : α)
  | rejected (reason : String)

/-- Assignment to a JavaScript string-keyed object: an existing key keeps
its position and gets the new value (last write wins), a new key is
appended in insertion order. -/
def recordSet (r : List (String × List Comment)) (k : String) (v : List Comment) :
    List (String × List Comment) :=
  if r.any (fun p => p.1 == k) then r.map (fun p => if p.1 == k then (p.1, v) else p)
  else r ++ [(k, v)]

/-- Key lookup in the result object. -/
def recordGet (r : List (String × List Comment)) (k : String) : Option (List Comment) :=
  (r.find? (fun p => p.1 == k)).map Prod.snd

/-- The `results.forEach` loop of `fetchAllExternalComments`: a fulfilled
entry stores its platform's comments; a rejected entry stores `[]` under
`discussions[index].platform`.  The two lists always have equal length (the
settled results come from mapping over `discussions`); the mismatch cases
are unreachable and keep the accumulator. -/
def aggregateSettled : List (SettledResult (String × List Comment)) →
    List ExternalDiscussion → List (String × List Comment) →
    List (String × List Comment)
  | [], _, acc => acc
  | .fulfilled v :: results, ds, acc =>
    aggregateSettled results ds.tail (recordSet acc v.1 v.2)
  | .rejected _ :: results, d :: ds, acc =>
    aggregateSettled results ds (recordSet acc d.platform [])
  | .rejected _ :: results, [], acc => aggregateSettled results [] acc

/-- `fetchAllExternalComments`: fan out one dispatch per descriptor under
`Promise.allSettled` and collect per-platform results.  In this embedding
every dispatch is a total function, so each settled outcome is fulfilled;
the rejected branch of the collection loop is modelled by
`aggregateSettled` above. -/
def fetchAllExternalComments (discussions : List ExternalDiscussion) (net : Network) :
    List (String × List Comment) :=
  aggregateSettled
    (discussions.map fun d => .fulfilled (d.platform, fetchCommentsForPlatform d net))
    discussions []

/-! ## Concrete scenario fixtures -/

/-- The network behaviour of the C5 scenario: the V2EX replies endpoint for
topic 12345 returns one reply record. -/
def v2exScenarioNet : String → FetchOutcome (List V2exItem) :=
  fun u =>
    if u == "https://www.v2ex.com/api/replies/show.json?topic_id=12345" then
      .ok [{ id := 1, member := some { username := "u", avatar_mini := none },
             content := "hi", created := 1000 }]
    else .networkError

/-- The three descriptors of the C1 scenario. -/
def c1Discussions : List ExternalDiscussion :=
  [⟨"v2ex", "https://v2ex.com/t/12345"⟩,
   ⟨"reddit", "https://reddit.com/r/test/comments/123/"⟩,
   ⟨"hackernews", "https://news.ycombinator.com/item?id=2"⟩]

/-- The network of the C1 scenario: the second platform's call rejects
(`networkError` models a rejected `fetch` promise); the other two respond. -/
def c1Net : Network where
  v2ex := fun _ => .ok [{ id := 1, member := some { username := "u", avatar_mini := none },
                          content := "hi", created := 1000 }]
  reddit := fun _ => .networkError
  hackernews := fun _ =>
    .ok (.mk 2 (some "a") none "2009-02-13T23:31:30.000Z" none
          (some [.mk 3 (some "b") (some "t") "2009-02-13T23:31:31.000Z" (some 4) none]))

/-- A network on which every request fails. -/
def failNet : Network where
  v2ex := fun _ => .networkError
  reddit := fun _ => .httpError
  hackernews := fun _ => .malformed

/-- The network of the C6 scenario: one comment-kind record containing one
nested comment-kind reply. -/
def c6Net : String → FetchOutcome (Option (List RedditItem)) := fun _ =>
  .ok (some [.mk "t1" "parent1" "alice" "hello" 1000 5
    (some [.mk "t1" "child1" "bob" "hi" 2000 2 none])])

/-- A textless child holding a text-bearing grandchild. -/
def c7TextlessChild : HNItem :=
  .mk 2 (some "mid") none "2009-02-13T23:31:30.000Z" none
    (some [.mk 3 (some "leaf") (some "deep text") "2009-02-13T23:31:31.000Z" (some 1) none])

/-! ## The platform invariant

`commentPlatformAll tag c` holds when every node of the comment tree `c` —
including every node reachable through `replies`, at every depth — has
`platform = tag`. -/

mutual

def commentPlatformAll (tag : String) : Comment → Bool
  | .mk _ _ _ _ replies _ platform _ => platform == tag && repliesPlatformAll tag replies

def repliesPlatformAll (tag : String) : Option (List Comment) → Bool
  | none => true
  | some l => commentsPlatformAll tag l

def commentsPlatformAll (tag : String) : List Comment → Bool
  | [] => true
  | c :: cs => commentPlatformAll tag c && commentsPlatformAll tag cs

end

theorem v2ex_map_platformAll (data : List V2exItem) :
    commentsPlatformAll "v2ex" (data.map v2exItemComment) = true := by
  induction data with
  | nil => rfl
  | cons item rest ih =>
    simp [v2exItemComment, commentPlatformAll, commentsPlatformAll, repliesPlatformAll, ih]

theorem reddit_platformAll :
    (∀ item, commentPlatformAll "reddit" (redditItemComment item) = true) ∧
    (∀ o, commentsPlatformAll "reddit" (parseRedditReplies o) = true) ∧
    (∀ items, commentsPlatformAll "reddit" (parseRedditComments items) = true) := by
  refine redditItemComment.mutual_induct
    (fun item => commentPlatformAll "reddit" (redditItemComment item) = true)
    (fun o => commentsPlatformAll "reddit" (parseRedditReplies o) = true)
    (fun items => commentsPlatformAll "reddit" (parseRedditComments items) = true)
    ?_ ?_ ?_ ?_ ?_ ?_
  · intro k id author body created_utc score replies ih
    simp [redditItemComment, commentPlatformAll, repliesPlatformAll, ih]
  · intro children ih
    simpa [parseRedditReplies] using ih
  · rfl
  · rfl
  · intro item rest hkind ih ihrest
    simp [parseRedditComments, hkind, commentsPlatformAll, ih, ihrest]
  · intro item rest hkind ihrest
    simp [parseRedditComments, hkind, ihrest]

theorem hn_platformAll :
    (∀ item, commentPlatformAll "hackernews" (hnItemComment item) = true) ∧
    (∀ o, commentsPlatformAll "hackernews" (parseHNChildren o) = true) ∧
    (∀ items, commentsPlatformAll "hackernews" (parseHNList items) = true) := by
  refine hnItemComment.mutual_induct
    (fun item => commentPlatformAll "hackernews" (hnItemComment item) = true)
    (fun o => commentsPlatformAll "hackernews" (parseHNChildren o) = true)
    (fun items => commentsPlatformAll "hackernews" (parseHNList items) = true)
    ?_ ?_ ?_ ?_ ?_ ?_
  · intro i author text created_at points children ih
    simp [hnItemComment, commentPlatformAll, repliesPlatformAll, ih]
  · rfl
  · intro items ih
    simpa [parseHNChildren] using ih
  · rfl
  · intro child rest htext ih ihrest
    simp [parseHNList, htext, commentsPlatformAll, ih, ihrest]
  · intro child rest htext ihrest
    simp [parseHNList, htext, ihrest]

theorem hn_item_platformAll (item : HNItem) :
    commentsPlatformAll "hackernews" (parseHNComments item) = true := by
  cases item with
  | mk i author text created_at points children => exact hn_platformAll.2.1 children

/-- Claim C2: for every adapter (`fetchV2exComments`, `fetchRedditComments`,
`fetchHackerNewsComments`) and every response input, every `Comment` in the
adapter's output — including every node reachable through `replies` at every
depth — has its `platform` field equal to that adapter's fixed platform tag
(`v2ex`, `reddit`, `hackernews` respectively), never inherited from the
input. -/
theorem platform_invariant_all_adapters :
    (∀ url net, commentsPlatformAll "v2ex" (fetchV2exComments url net) = true) ∧
    (∀ url net, commentsPlatformAll "reddit" (fetchRedditComments url net) = true) ∧
    (∀ url net, commentsPlatformAll "hackernews" (fetchHackerNewsComments url net) = true) := by
  refine ⟨fun url net => ?_, fun url net => ?_, fun url net => ?_⟩
  · unfold fetchV2exComments
    split
    · rfl
    · split
      · exact v2ex_map_platformAll _
      · rfl
  · unfold fetchRedditComments
    split
    · exact reddit_platformAll.2.2 _
    · rfl
  · unfold fetchHackerNewsComments
    split
    · rfl
    · split
      · exact hn_item_platformAll _
      · rfl

/-! ## Claim C5: the concrete V2EX scenario -/

/-- Claim C5: for the forum input `{platform:'v2ex', url:'https://v2ex.com/t/12345'}`
with the API returning `[{id:1, member:{username:'u'}, content:'hi', created:1000}]`,
`fetchV2exComments` yields exactly one `Comment` with id `v2ex-1`, author `u`,
content `hi`, timestamp `1970-01-01T00:16:40.000Z` (epoch seconds converted
to ISO-8601), and platform `v2ex`. -/
theorem v2ex_concrete_scenario :
    fetchV2exComments "https://v2ex.com/t/12345" v2exScenarioNet =
      [Comment.mk "v2ex-1" "u" "hi" "1970-01-01T00:16:40.000Z" none none "v2ex" none] := rfl

/-! ## Record lemmas for the aggregate result object -/

theorem find_replace_self (r : List (String × List Comment)) (k : String) (v : List Comment)
    (h : r.any (fun p => p.1 == k) = true) :
    ((r.map (fun p => if p.1 == k then (p.1, v) else p)).find?
      (fun p => p.1 == k)).map Prod.snd = some v := by
  induction r with
  | nil => simp at h
  | cons p r' ih =>
    by_cases hp : (p.1 == k) = true
    · simp [List.find?, hp]
    · have h' : r'.any (fun p => p.1 == k) = true := by
        simpa [List.any_cons, hp] using h
      simpa [List.find?, hp] using ih h'

theorem find_append_self (r : List (String × List Comment)) (k : String) (v : List Comment)
    (h : r.any (fun p => p.1 == k) = false) :
    ((r ++ [(k, v)]).find? (fun p => p.1 == k)).map Prod.snd = some v := by
  induction r with
  | nil => simp [List.find?]
  | cons p r' ih =>
    rw [List.any_cons, Bool.or_eq_false_iff] at h
    simpa [List.find?, h.1] using ih h.2

/-- Writing key `k` makes `recordGet _ k` read back the written value. -/
theorem recordGet_set_self (r : List (String × List Comment)) (k : String) (v : List Comment) :
    recordGet (recordSet r k v) k = some v := by
  unfold recordGet recordSet
  by_cases h : r.any (fun p => p.1 == k) = true
  · simpa [h] using find_replace_self r k v h
  · simp only [Bool.not_eq_true] at h
    simpa [h] using find_append_self r k v h

theorem find_replace_other (r : List (String × List Comment)) (k k' : String)
    (v : List Comment) (hne : k ≠ k') :
    ((r.map (fun p => if p.1 == k' then (p.1, v) else p)).find?
      (fun p => p.1 == k)).map Prod.snd =
      (r.find? (fun p => p.1 == k)).map Prod.snd := by
  induction r with
  | nil => rfl
  | cons p r' ih =>
    by_cases hp : (p.1 == k) = true
    · have hp' : (p.1 == k') = false := by
        have hpk : p.1 = k := by simpa using hp
        simp [hpk, hne]
      simp [List.find?, hp, hp']
    · by_cases hp' : (p.1 == k') = true
      · simpa [List.find?, hp, hp'] using ih
      · simpa [List.find?, hp, hp'] using ih

theorem find_append_other (r : List (String × List Comment)) (k k' : String)
    (v : List Comment) (hne : k ≠ k') :
    ((r ++ [(k', v)]).find? (fun p => p.1 == k)).map Prod.snd =
      (r.find? (fun p => p.1 == k)).map Prod.snd := by
  induction r with
  | nil =>
    have hk : (k' == k) = false := by
      simpa using fun hc => hne hc.symm
    simp [List.find?, hk]
  | cons p r' ih =>
    by_cases hp : (p.1 == k) = true
    · simp [List.find?, hp]
    · simpa [List.find?, hp] using ih

/-- Writing key `k'` leaves reads of a different key `k` unchanged. -/
theorem recordGet_set_other (r : List (String × List Comment)) (k k' : String)
    (v : List Comment) (hne : k ≠ k') :
    recordGet (recordSet r k' v) k = recordGet r k := by
  unfold recordGet recordSet
  by_cases h : r.any (fun p => p.1 == k') = true
  · simpa [h] using find_replace_other r k k' v hne
  · simpa [h] using find_append_other r k k' v hne

/-- A present key stays present under any further writes. -/
theorem recordSet_isSome_mono (r : List (String × List Comment)) (k k' : String)
    (v : List Comment) (h : (recordGet r k).isSome = true) :
    (recordGet (recordSet r k' v) k).isSome = true := by
  by_cases hk : k = k'
  · subst hk
    rw [recordGet_set_self]
    rfl
  · rwa [recordGet_set_other r k k' v hk]

/-- A present key stays present through the whole collection loop. -/
theorem aggregateSettled_isSome_mono
    (results : List (SettledResult (String × List Comment))) :
    ∀ (ds : List ExternalDiscussion) (acc : List (String × List Comment)) (k : String),
      (recordGet acc k).isSome = true →
      (recordGet (aggregateSettled results ds acc) k).isSome = true := by
  induction results with
  | nil => intro ds acc k h; exact h
  | cons res rest ih =>
    intro ds acc k h
    cases res with
    | fulfilled v => exact ih ds.tail _ k (recordSet_isSome_mono acc k v.1 v.2 h)
    | rejected reason =>
      cases ds with
      | nil => exact ih [] acc k h
      | cons d ds' => exact ih ds' _ k (recordSet_isSome_mono acc k d.platform [] h)

/-- Every processed descriptor leaves its platform tag present in the
result object. -/
theorem agg_map_presence (F : ExternalDiscussion → List Comment) :
    ∀ (ds : List ExternalDiscussion) (acc : List (String × List Comment))
      (d : ExternalDiscussion), d ∈ ds →
      (recordGet
        (aggregateSettled (ds.map fun d => .fulfilled (d.platform, F d)) ds acc)
        d.platform).isSome = true := by
  intro ds
  induction ds with
  | nil => intro acc d hd; cases hd
  | cons d0 ds' ih =>
    intro acc d hd
    rw [List.map_cons]
    show (recordGet (aggregateSettled _ ds'
      (recordSet acc d0.platform (F d0))) d.platform).isSome = true
    rcases List.mem_cons.mp hd with h | h
    · subst h
      exact aggregateSettled_isSome_mono _ _ _ _
        (by rw [recordGet_set_self]; rfl)
    · exact ih _ d h

/-- If no processed descriptor carries tag `tag`, the collection loop never
writes `tag`. -/
theorem agg_map_no_tag (F : ExternalDiscussion → List Comment) (tag : String) :
    ∀ (ds : List ExternalDiscussion) (acc : List (String × List Comment)),
      (∀ d' ∈ ds, d'.platform ≠ tag) →
      recordGet
        (aggregateSettled (ds.map fun d => .fulfilled (d.platform, F d)) ds acc) tag =
        recordGet acc tag := by
  intro ds
  induction ds with
  | nil => intro acc _; rfl
  | cons d0 ds' ih =>
    intro acc hno
    rw [List.map_cons]
    show recordGet (aggregateSettled _ ds'
      (recordSet acc d0.platform (F d0))) tag = recordGet acc tag
    rw [ih _ fun d' hd' => hno d' (List.mem_cons_of_mem d0 hd'),
      recordGet_set_other _ _ _ _ fun hc => hno d0 (List.mem_cons_self d0 ds') hc.symm]

/-- If every dispatch carrying tag `tag` produces `[]` and at least one
descriptor carries `tag`, the result object maps `tag` to `[]`. -/
theorem agg_map_all_empty (F : ExternalDiscussion → List Comment) (tag : String) :
    ∀ (ds : List ExternalDiscussion) (acc : List (String × List Comment)),
      (∀ d' ∈ ds, d'.platform = tag → F d' = []) →
      (∃ d' ∈ ds, d'.platform = tag) →
      recordGet
        (aggregateSettled (ds.map fun d => .fulfilled (d.platform, F d)) ds acc) tag =
        some [] := by
  intro ds
  induction ds with
  | nil => intro acc _ hex; simp at hex
  | cons d0 ds' ih =>
    intro acc hempty hex
    rw [List.map_cons]
    show recordGet (aggregateSettled _ ds'
      (recordSet acc d0.platform (F d0))) tag = some []
    by_cases h0 : d0.platform = tag
    · by_cases hex' : ∃ d' ∈ ds', d'.platform = tag
      · exact ih _ (fun d' hd' => hempty d' (List.mem_cons_of_mem d0 hd')) hex'
      · push_neg at hex'
        rw [agg_map_no_tag F tag ds' _ hex']
        rw [hempty d0 (List.mem_cons_self d0 ds') h0, ← h0, recordGet_set_self]
    · rcases hex with ⟨d', hd', htag⟩
      rcases List.mem_cons.mp hd' with h | h
      · exact absurd (h ▸ htag) h0
      · exact ih _ (fun d'' hd'' => hempty d'' (List.mem_cons_of_mem d0 hd'')) ⟨d', h, htag⟩

/-! ## Claim C1: aggregate totality and failure isolation -/

/-- Claim C1: for every list of discussion descriptors,
`fetchAllExternalComments` resolves (it is a total function of this
embedding), and its result mapping contains one key per input descriptor's
platform tag; a rejected settled outcome stores `[]` under its descriptor's
tag, and when every dispatch for a tag fails (returns `[]`), the tag maps to
the empty sequence.  In particular, for the aggregate call over three
descriptors where the second platform's network call rejects, all three keys
are present and the second maps to an empty sequence. -/
theorem aggregate_failure_isolation :
    (∀ (discussions : List ExternalDiscussion) (net : Network) (d : ExternalDiscussion),
      d ∈ discussions →
      (recordGet (fetchAllExternalComments discussions net) d.platform).isSome = true) ∧
    (∀ (results : List (SettledResult (String × List Comment)))
      (ds : List ExternalDiscussion) (acc : List (String × List Comment))
      (reason : String) (d : ExternalDiscussion),
      aggregateSettled (.rejected reason :: results) (d :: ds) acc =
        aggregateSettled results ds (recordSet acc d.platform [])) ∧
    (∀ (discussions : List ExternalDiscussion) (net : Network) (d : ExternalDiscussion),
      d ∈ discussions →
      (∀ d' ∈ discussions, d'.platform = d.platform →
        fetchCommentsForPlatform d' net = []) →
      recordGet (fetchAllExternalComments discussions net) d.platform = some []) ∧
    (fetchAllExternalComments c1Discussions c1Net).map Prod.fst =
      ["v2ex", "reddit", "hackernews"] ∧
    recordGet (fetchAllExternalComments c1Discussions c1Net) "reddit" = some [] := by
  refine ⟨fun discussions net d hd => ?_, fun _ _ _ _ _ => rfl,
    fun discussions net d hd hall => ?_, rfl, rfl⟩
  · exact agg_map_presence (fetchCommentsForPlatform · net) discussions [] d hd
  · exact agg_map_all_empty (fetchCommentsForPlatform · net) d.platform discussions []
      hall ⟨d, hd, rfl⟩

/-- Witness for C1 at concrete inputs: the presence conjunct and the
all-dispatches-fail conjunct, instantiated on the three-descriptor
scenario. -/
theorem aggregate_failure_isolation_witness :
    (recordGet (fetchAllExternalComments c1Discussions c1Net) "hackernews").isSome = true ∧
    recordGet (fetchAllExternalComments c1Discussions c1Net) "reddit" = some [] := by
  constructor
  · exact aggregate_failure_isolation.1 c1Discussions c1Net
      ⟨"hackernews", "https://news.ycombinator.com/item?id=2"⟩
      (by simp [c1Discussions])
  · refine aggregate_failure_isolation.2.2.1 c1Discussions c1Net
      ⟨"reddit", "https://reddit.com/r/test/comments/123/"⟩
      (by simp [c1Discussions]) ?_
    intro d' hd' htag
    simp only [c1Discussions, List.mem_cons, List.not_mem_nil, or_false] at hd'
    rcases hd' with h | h | h <;> subst h
    · simp at htag
    · rfl
    · simp at htag

/-! ## Claim C3: no failure escapes an adapter or the router

Every embedded operation is a total Lean function, so "never raises" holds
by construction; the theorem states the computable residue: each failure
outcome (bad URL shape, rejected fetch, non-ok status, malformed body)
yields `[]`, and an unrecognized platform tag yields `[]` through the
router's `default` branch. -/

/-- Claim C3: for every input (URL, options, and any adapter outcome
including bad URL shape, network failure, non-success HTTP status, or
malformed response body), each adapter and the router
`fetchCommentsForPlatform` never raise an exception: every failure is
converted to an empty sequence, and an unrecognized platform tag in the
descriptor yields an empty sequence rather than a throw. -/
theorem adapters_and_router_fail_soft :
    (∀ url net, extractTopicId url = none → fetchV2exComments url net = []) ∧
    (∀ url net topicId, extractTopicId url = some topicId →
      (net (v2exApiUrl topicId)).isOk = false → fetchV2exComments url net = []) ∧
    (∀ url net, (net (redditJsonUrl url)).isOk = false → fetchRedditComments url net = []) ∧
    (∀ url net, extractItemId url = none → fetchHackerNewsComments url net = []) ∧
    (∀ url net itemId, extractItemId url = some itemId →
      (net (hnApiUrl itemId)).isOk = false → fetchHackerNewsComments url net = []) ∧
    (∀ (d : ExternalDiscussion) (net : Network),
      d.platform ≠ "v2ex" → d.platform ≠ "reddit" → d.platform ≠ "hackernews" →
      fetchCommentsForPlatform d net = []) := by
  refine ⟨fun url net h => ?_, fun url net topicId h hok => ?_, fun url net hok => ?_,
    fun url net h => ?_, fun url net itemId h hok => ?_, fun d net h1 h2 h3 => ?_⟩
  · simp [fetchV2exComments, h]
  · rw [fetchV2exComments, h]
    cases ho : net (v2exApiUrl topicId) <;> simp_all [FetchOutcome.isOk]
  · rw [fetchRedditComments]
    cases ho : net (redditJsonUrl url) <;> simp_all [FetchOutcome.isOk]
  · simp [fetchHackerNewsComments, h]
  · rw [fetchHackerNewsComments, h]
    cases ho : net (hnApiUrl itemId) <;> simp_all [FetchOutcome.isOk]
  · rw [fetchCommentsForPlatform]
    split <;> simp_all

/-- Witness for C3 at concrete inputs: a malformed V2EX URL, a failing V2EX
request, a failing Reddit request, a malformed HN URL, a failing HN request,
and an unrecognized platform tag all yield `[]`. -/
theorem adapters_and_router_fail_soft_witness :
    fetchV2exComments "https://v2ex.com/about" failNet.v2ex = [] ∧
    fetchV2exComments "https://v2ex.com/t/5" failNet.v2ex = [] ∧
    fetchRedditComments "https://reddit.com/r/test/comments/1" failNet.reddit = [] ∧
    fetchHackerNewsComments "https://news.ycombinator.com/" failNet.hackernews = [] ∧
    fetchHackerNewsComments "https://news.ycombinator.com/item?id=9" failNet.hackernews = [] ∧
    fetchCommentsForPlatform ⟨"github", "https://github.com/x"⟩ failNet = [] :=
  ⟨adapters_and_router_fail_soft.1 _ _ (by decide),
   adapters_and_router_fail_soft.2.1 _ _ "5" (by decide) rfl,
   adapters_and_router_fail_soft.2.2.1 _ _ rfl,
   adapters_and_router_fail_soft.2.2.2.1 _ _ (by decide),
   adapters_and_router_fail_soft.2.2.2.2.1 _ _ "9" (by decide) rfl,
   adapters_and_router_fail_soft.2.2.2.2.2 _ _ (by decide) (by decide) (by decide)⟩

/-! ## Claim C4: identifier extraction -/

theorem takeWhile_digits_append (ds suf : List Char)
    (hds : ∀ c ∈ ds, c.isDigit = true)
    (hsuf : ∀ c, suf.head? = some c → c.isDigit = false) :
    (ds ++ suf).takeWhile Char.isDigit = ds := by
  induction ds with
  | nil =>
    cases suf with
    | nil => rfl
    | cons c s => simp [List.takeWhile_cons, hsuf c rfl]
  | cons c ds' ih =>
    simp [List.takeWhile_cons, hds c (List.mem_cons_self c ds'),
      ih fun c hc => hds c (List.mem_cons_of_mem _ hc)]

theorem takeWhile_digits_nil_append (l K : List Char)
    (hK : K.takeWhile Char.isDigit = [])
    (h : l.takeWhile Char.isDigit = []) :
    (l ++ K).takeWhile Char.isDigit = [] := by
  cases l with
  | nil => simpa using hK
  | cons e r =>
    rw [List.takeWhile_cons] at h
    cases he : e.isDigit with
    | true => rw [he] at h; simp at h
    | false => simp [List.takeWhile_cons, he]

theorem extractTopicIdAux_none_tail (c : Char) (l : List Char)
    (h : extractTopicIdAux (c :: l) = none) : extractTopicIdAux l = none := by
  rw [extractTopicIdAux] at h
  split at h
  · split at h
    · exact h
    · exact absurd h (by simp)
  · exact h

theorem extractItemIdAux_none_tail (c : Char) (l : List Char)
    (h : extractItemIdAux (c :: l) = none) : extractItemIdAux l = none := by
  rw [extractItemIdAux] at h
  split at h
  · split at h
    · exact h
    · exact absurd h (by simp)
  · exact h

/-- Completeness of the V2EX topic-id scanner: on a URL that is a prefix
containing no earlier match, then a literal `/t/`, then a nonempty digit
run, then a non-digit remainder, the scanner captures exactly that digit
run. -/
theorem extractTopicIdAux_complete (ds suf : List Char) (hne : ds ≠ [])
    (hds : ∀ c ∈ ds, c.isDigit = true)
    (hsuf : ∀ c, suf.head? = some c → c.isDigit = false) :
    ∀ pre, extractTopicIdAux pre = none →
      extractTopicIdAux (pre ++ '/' :: 't' :: '/' :: (ds ++ suf)) = some ds := by
  have hdsK : (ds ++ suf).takeWhile Char.isDigit = ds :=
    takeWhile_digits_append ds suf hds hsuf
  have hdsE : ds.isEmpty = false := by cases ds with | nil => exact absurd rfl hne | cons a b => rfl
  intro pre
  induction pre with
  | nil =>
    intro _
    rw [List.nil_append, extractTopicIdAux]
    have hpre : ['/', 't', '/'].isPrefixOf ('/' :: 't' :: '/' :: (ds ++ suf)) = true := by
      simp [List.isPrefixOf]
    simp only [hpre, if_true, List.drop_succ_cons, List.drop_zero, hdsK, hdsE,
      Bool.false_eq_true, if_false]
  | cons c pre' ih =>
    intro h
    have htail : extractTopicIdAux pre' = none := extractTopicIdAux_none_tail c pre' h
    rw [List.cons_append, extractTopicIdAux]
    by_cases hcond :
        ['/', 't', '/'].isPrefixOf (c :: (pre' ++ '/' :: 't' :: '/' :: (ds ++ suf))) = true
    · rw [if_pos hcond]
      cases pre' with
      | nil => simp [List.isPrefixOf] at hcond
      | cons p1 pre'' =>
        cases pre'' with
        | nil =>
          -- straddle: `c :: [p1]` followed by the appended `/t/`; the digit
          -- run after the matched window starts at `t`, so it is empty and
          -- the scanner retries from the next position.
          obtain ⟨hc, hp1⟩ : '/' = c ∧ 't' = p1 := by
            simpa [List.isPrefixOf] using hcond
          subst hc; subst hp1
          simp only [List.cons_append, List.nil_append, List.drop_succ_cons,
            List.drop_zero]
          rw [show List.takeWhile Char.isDigit ('t' :: '/' :: (ds ++ suf)) = [] by
            simp [List.takeWhile_cons]]
          simpa using ih htail
        | cons p2 pre''' =>
          obtain ⟨hc, hp1, hp2⟩ : '/' = c ∧ 't' = p1 ∧ '/' = p2 := by
            simpa [List.isPrefixOf] using hcond
          subst hc; subst hp1; subst hp2
          -- the scanner of the bare prefix found this `/t/` too and saw no
          -- digits after it
          have hpre''' : pre'''.takeWhile Char.isDigit = [] := by
            rw [extractTopicIdAux] at h
            split at h
            · split at h
              · next hemp =>
                simpa [List.isEmpty_iff, List.drop_succ_cons, List.drop_zero] using hemp
              · exact absurd h (by simp)
            · next hcond2 => exact absurd (by simp [List.isPrefixOf]) hcond2
          simp only [List.cons_append, List.drop_succ_cons, List.drop_zero]
          rw [takeWhile_digits_nil_append pre''' _ (by simp [List.takeWhile_cons]) hpre''']
          simpa using ih htail
    · simp only [Bool.not_eq_true] at hcond
      rw [hcond]
      simp only [Bool.false_eq_true, if_false]
      exact ih htail

/-- Completeness of the Hacker News item-id scanner: on a URL that is a
prefix containing no earlier match, then the literal `item?id=`, then a
nonempty digit run, then a non-digit remainder, the scanner captures exactly
that digit run. -/
theorem extractItemIdAux_complete (ds suf : List Char) (hne : ds ≠ [])
    (hds : ∀ c ∈ ds, c.isDigit = true)
    (hsuf : ∀ c, suf.head? = some c → c.isDigit = false) :
    ∀ pre, extractItemIdAux pre = none →
      extractItemIdAux
        (pre ++ 'i' :: 't' :: 'e' :: 'm' :: '?' :: 'i' :: 'd' :: '=' :: (ds ++ suf)) =
        some ds := by
  have hdsK : (ds ++ suf).takeWhile Char.isDigit = ds :=
    takeWhile_digits_append ds suf hds hsuf
  have hdsE : ds.isEmpty = false := by cases ds with | nil => exact absurd rfl hne | cons a b => rfl
  intro pre
  induction pre with
  | nil =>
    intro _
    rw [List.nil_append, extractItemIdAux]
    have hpre : ['i', 't', 'e', 'm', '?', 'i', 'd', '='].isPrefixOf
        ('i' :: 't' :: 'e' :: 'm' :: '?' :: 'i' :: 'd' :: '=' :: (ds ++ suf)) = true := by
      simp [List.isPrefixOf]
    simp only [hpre, if_true, List.drop_succ_cons, List.drop_zero, hdsK, hdsE,
      Bool.false_eq_true, if_false]
  | cons c pre' ih =>
    intro h
    have htail : extractItemIdAux pre' = none := extractItemIdAux_none_tail c pre' h
    rw [List.cons_append, extractItemIdAux]
    by_cases hcond : ['i', 't', 'e', 'm', '?', 'i', 'd', '='].isPrefixOf
        (c :: (pre' ++ 'i' :: 't' :: 'e' :: 'm' :: '?' :: 'i' :: 'd' :: '=' :: (ds ++ suf))) =
        true
    · rw [if_pos hcond]
      -- the pattern `item?id=` has no nonempty border, so the window cannot
      -- straddle the boundary: the prefix part must hold at least 7 further
      -- characters, and the window then lies inside the scanned prefix.
      rcases pre' with _ | ⟨p1, _ | ⟨p2, _ | ⟨p3, _ | ⟨p4, _ | ⟨p5, _ | ⟨p6, _ | ⟨p7, pre8⟩⟩⟩⟩⟩⟩⟩
      · simp [List.isPrefixOf] at hcond
      · simp [List.isPrefixOf] at hcond
      · simp [List.isPrefixOf] at hcond
      · simp [List.isPrefixOf] at hcond
      · simp [List.isPrefixOf] at hcond
      · simp [List.isPrefixOf] at hcond
      · simp [List.isPrefixOf] at hcond
      · obtain ⟨hc, h1, h2, h3, h4, h5, h6, h7⟩ :
            'i' = c ∧ 't' = p1 ∧ 'e' = p2 ∧ 'm' = p3 ∧ '?' = p4 ∧ 'i' = p5 ∧ 'd' = p6 ∧
              '=' = p7 := by
          simpa [List.isPrefixOf] using hcond
        subst hc; subst h1; subst h2; subst h3; subst h4; subst h5; subst h6; subst h7
        have hpre8 : pre8.takeWhile Char.isDigit = [] := by
          rw [extractItemIdAux] at h
          split at h
          · split at h
            · next hemp =>
              simpa [List.isEmpty_iff, List.drop_succ_cons, List.drop_zero] using hemp
            · exact absurd h (by simp)
          · next hcond2 => exact absurd (by simp [List.isPrefixOf]) hcond2
        simp only [List.cons_append, List.drop_succ_cons, List.drop_zero]
        rw [takeWhile_digits_nil_append pre8 _ (by simp [List.takeWhile_cons]) hpre8]
        simpa using ih htail
    · simp only [Bool.not_eq_true] at hcond
      rw [hcond]
      simp only [Bool.false_eq_true, if_false]
      exact ih htail

/-- Claim C4: for every forum (V2EX) URL containing a `/t/{digits}` path
segment (at the first match position) and every news-aggregator (Hacker
News) URL containing `item?id={digits}`, identifier extraction returns
exactly that numeric substring; for every URL not matching the pattern, the
owning adapter returns an empty sequence and performs no network call. -/
theorem identifier_extraction_correct :
    (∀ (url : String) (pre ds suf : List Char),
      url.data = pre ++ '/' :: 't' :: '/' :: (ds ++ suf) →
      extractTopicIdAux pre = none → ds ≠ [] →
      (∀ c ∈ ds, c.isDigit = true) →
      (∀ c, suf.head? = some c → c.isDigit = false) →
      extractTopicId url = some (String.mk ds)) ∧
    (∀ (url : String) (pre ds suf : List Char),
      url.data = pre ++ 'i' :: 't' :: 'e' :: 'm' :: '?' :: 'i' :: 'd' :: '=' :: (ds ++ suf) →
      extractItemIdAux pre = none → ds ≠ [] →
      (∀ c ∈ ds, c.isDigit = true) →
      (∀ c, suf.head? = some c → c.isDigit = false) →
      extractItemId url = some (String.mk ds)) ∧
    (∀ url net, extractTopicId url = none →
      fetchV2exComments url net = [] ∧ fetchV2exRequests url = []) ∧
    (∀ url net, extractItemId url = none →
      fetchHackerNewsComments url net = [] ∧ fetchHackerNewsRequests url = []) := by
  refine ⟨fun url pre ds suf hurl hpre hne hds hsuf => ?_,
    fun url pre ds suf hurl hpre hne hds hsuf => ?_,
    fun url net h => ⟨by simp [fetchV2exComments, h], by simp [fetchV2exRequests, h]⟩,
    fun url net h => ⟨by simp [fetchHackerNewsComments, h],
      by simp [fetchHackerNewsRequests, h]⟩⟩
  · unfold extractTopicId
    rw [hurl, extractTopicIdAux_complete ds suf hne hds hsuf pre hpre]
    rfl
  · unfold extractItemId
    rw [hurl, extractItemIdAux_complete ds suf hne hds hsuf pre hpre]
    rfl

/-- Witness for C4 at concrete inputs: extraction on the two pattern-bearing
URLs, and the no-request behaviour on two non-matching URLs. -/
theorem identifier_extraction_correct_witness :
    extractTopicId "https://v2ex.com/t/12345" = some "12345" ∧
    extractItemId "https://news.ycombinator.com/item?id=98765" = some "98765" ∧
    (fetchV2exComments "https://v2ex.com/about" failNet.v2ex = [] ∧
      fetchV2exRequests "https://v2ex.com/about" = []) ∧
    (fetchHackerNewsComments "https://news.ycombinator.com/" failNet.hackernews = [] ∧
      fetchHackerNewsRequests "https://news.ycombinator.com/" = []) :=
  ⟨identifier_extraction_correct.1 "https://v2ex.com/t/12345"
      "https://v2ex.com".data "12345".data [] (by decide) (by decide) (by decide)
      (by decide) (by intro c hc; exact absurd hc (by simp)),
   identifier_extraction_correct.2.1 "https://news.ycombinator.com/item?id=98765"
      "https://news.ycombinator.com/".data "98765".data [] (by decide) (by decide)
      (by decide) (by decide) (by intro c hc; exact absurd hc (by simp)),
   identifier_extraction_correct.2.2.1 "https://v2ex.com/about" failNet.v2ex (by decide),
   identifier_extraction_correct.2.2.2 "https://news.ycombinator.com/" failNet.hackernews
      (by decide)⟩

/-! ## Projection lemmas for the per-record mappings -/

theorem redditItemComment_id (item : RedditItem) :
    (redditItemComment item).id = "reddit-" ++ item.id := by
  cases item; rfl

theorem redditItemComment_votes (item : RedditItem) :
    (redditItemComment item).votes = some item.score := by
  cases item; rfl

theorem redditItemComment_replies (item : RedditItem) :
    (redditItemComment item).replies = some (parseRedditReplies item.replies) := by
  cases item; rfl

theorem hnItemComment_votes (item : HNItem) :
    (hnItemComment item).votes = item.points := by
  cases item; rfl

theorem v2exItemComment_votes (item : V2exItem) :
    (v2exItemComment item).votes = none := rfl

/-! ## Claim C6: Reddit kind filtering and reply recursion -/

/-- Claim C6: for every link-aggregator (Reddit) response, parsing filters to
records with kind `t1` (discarding all other kinds: the surviving ids are
exactly the `t1` ids, and a non-`t1` record contributes nothing) and
recurses into nested replies listings; in particular, for a response with
one comment-kind record containing one nested comment-kind reply, the
output is one top-level `Comment` whose `replies` has exactly one entry,
and that reply's id equals `reddit-` followed by the child's native id. -/
theorem reddit_filter_and_recursion :
    (∀ items : List RedditItem,
      (parseRedditComments items).map Comment.id =
        (items.filter fun i => i.kind == "t1").map (fun i => "reddit-" ++ i.id)) ∧
    (∀ (item : RedditItem) (rest : List RedditItem), (item.kind == "t1") = false →
      parseRedditComments (item :: rest) = parseRedditComments rest) ∧
    (∀ children : List RedditItem,
      parseRedditReplies (some children) = parseRedditComments children) ∧
    fetchRedditComments "https://reddit.com/r/test/comments/123/" c6Net =
      [Comment.mk "reddit-parent1" "alice" "hello" "1970-01-01T00:16:40.000Z"
        (some [Comment.mk "reddit-child1" "bob" "hi" "1970-01-01T00:33:20.000Z"
          (some []) (some 2) "reddit" none])
        (some 5) "reddit" none] := by
  refine ⟨fun items => ?_, fun item rest hk => ?_, fun children => rfl, rfl⟩
  · induction items with
    | nil => rfl
    | cons item rest ih =>
      by_cases hk : (item.kind == "t1") = true
      · rw [parseRedditComments, if_pos hk]
        simp [List.filter_cons, hk, redditItemComment_id, ih]
      · simp only [Bool.not_eq_true] at hk
        rw [parseRedditComments, hk]
        simp [List.filter_cons, hk, ih]
  · rw [parseRedditComments, hk]
    simp

/-- Witness for C6: the discarding equation at a concrete non-`t1` record. -/
theorem reddit_filter_and_recursion_witness :
    parseRedditComments [RedditItem.mk "more" "zzz" "x" "y" 0 0 none] =
      parseRedditComments [] :=
  reddit_filter_and_recursion.2.1 (RedditItem.mk "more" "zzz" "x" "y" 0 0 none) [] rfl

/-! ## Claim C7: textless Hacker News children are skipped entirely -/

/-- Claim C7: for every news-aggregator (Hacker News) response, a child item
with no non-empty `text` field produces no `Comment` and is excluded from
the output sequence entirely, and its own children are not independently
walked — any text-bearing descendants of a textless node are dropped from
the output. -/
theorem hn_textless_child_skipped :
    (∀ (child : HNItem) (rest : List HNItem), jsTruthyStr child.text = false →
      parseHNList (child :: rest) = parseHNList rest) ∧
    parseHNComments (.mk 1 (some "root") none "2009-02-13T23:31:29.000Z" none
      (some [c7TextlessChild])) = [] := by
  refine ⟨fun child rest htext => ?_, rfl⟩
  rw [parseHNList, htext]
  simp

/-- Witness for C7: the skipping equation at the concrete textless child. -/
theorem hn_textless_child_skipped_witness :
    parseHNList [c7TextlessChild] = parseHNList [] :=
  hn_textless_child_skipped.1 c7TextlessChild [] rfl

/-! ## Claim C9: the `votes` field -/

/-- Claim C9: the `votes` field of a `Comment` is present only for the two
platforms that expose a score (Reddit and Hacker News) and is omitted — not
set to zero or null — when unknown: every `Comment` produced by the forum
(V2EX) adapter has no `votes` field, every Reddit comment carries its
record's score, and every `Comment` produced by the news-aggregator adapter
carries the child's optional point count — in particular none when the
child has no point count. -/
theorem votes_presence :
    (∀ url net, (fetchV2exComments url net).all (fun c => c.votes == none) = true) ∧
    (∀ (child : HNItem) (rest : List HNItem), jsTruthyStr child.text = true →
      ∃ c cs, parseHNList (child :: rest) = c :: cs ∧ c.votes = child.points) ∧
    (∀ (item : RedditItem) (rest : List RedditItem), (item.kind == "t1") = true →
      ∃ c cs, parseRedditComments (item :: rest) = c :: cs ∧ c.votes = some item.score) := by
  refine ⟨fun url net => ?_, fun child rest htext => ?_, fun item rest hk => ?_⟩
  · unfold fetchV2exComments
    split
    · rfl
    · split
      · next data _ =>
        induction data with
        | nil => rfl
        | cons item rest ih => simp [v2exItemComment_votes, ih]
      · rfl
  · refine ⟨hnItemComment child, parseHNList rest, ?_, hnItemComment_votes child⟩
    rw [parseHNList, htext]
    simp
  · refine ⟨redditItemComment item, parseRedditComments rest, ?_, redditItemComment_votes item⟩
    rw [parseRedditComments, if_pos hk]

/-- Witness for C9: a text-bearing HN child without a point count yields a
comment with no `votes`, and a concrete `t1` Reddit record carries its
score. -/
theorem votes_presence_witness :
    (∃ c cs, parseHNList [HNItem.mk 7 (some "u") (some "t") "ts" none none] = c :: cs ∧
      c.votes = none) ∧
    (∃ c cs, parseRedditComments [RedditItem.mk "t1" "i" "a" "b" 0 (-2) none] = c :: cs ∧
      c.votes = some (-2)) :=
  ⟨votes_presence.2.1 (HNItem.mk 7 (some "u") (some "t") "ts" none none) [] rfl,
   votes_presence.2.2 (RedditItem.mk "t1" "i" "a" "b" 0 (-2) none) [] rfl⟩

/-! ## Identity lemmas for the fixed-literal replacements

Every fixed literal pattern starts with `&`, so a string without `&` is left
unchanged; and on a string of the shape `&#…` whose continuation cannot
complete the pattern, only the leading `&` is inspected before the scanner
falls through to the rest. -/

theorem ne_of_digit_of_not (c x : Char) (hc : c.isDigit = true)
    (hx : x.isDigit = false) : c ≠ x := by
  intro he; rw [he, hx] at hc; cases hc

theorem ne_of_hexDigit_of_not (c x : Char) (hc : isHexDigit c = true)
    (hx : isHexDigit x = false) : c ≠ x := by
  intro he; rw [he, hx] at hc; cases hc

theorem replaceX27_no_amp (l : List Char) (h : ∀ c ∈ l, c ≠ '&') : replaceX27 l = l := by
  induction l using replaceX27.induct with
  | case1 rest ih => exact absurd rfl (h '&' (by simp))
  | case2 c rest hne ih =>
    rw [replaceX27.eq_def]
    split
    · next heq => exact absurd rfl (h '&' (by rw [heq]; simp))
    · next c2 rest2 hne2 heq =>
      injection heq with h1 h2
      subst h1; subst h2
      rw [ih fun d hd => h d (List.mem_cons_of_mem _ hd)]
    · next heq => exact absurd heq (by simp)
  | case3 => rfl

theorem replaceX2F_no_amp (l : List Char) (h : ∀ c ∈ l, c ≠ '&') : replaceX2F l = l := by
  induction l using replaceX2F.induct with
  | case1 rest ih => exact absurd rfl (h '&' (by simp))
  | case2 c rest hne ih =>
    rw [replaceX2F.eq_def]
    split
    · next heq => exact absurd rfl (h '&' (by rw [heq]; simp))
    · next c2 rest2 hne2 heq =>
      injection heq with h1 h2
      subst h1; subst h2
      rw [ih fun d hd => h d (List.mem_cons_of_mem _ hd)]
    · next heq => exact absurd heq (by simp)
  | case3 => rfl

theorem replaceQuot_no_amp (l : List Char) (h : ∀ c ∈ l, c ≠ '&') : replaceQuot l = l := by
  induction l using replaceQuot.induct with
  | case1 rest ih => exact absurd rfl (h '&' (by simp))
  | case2 c rest hne ih =>
    rw [replaceQuot.eq_def]
    split
    · next heq => exact absurd rfl (h '&' (by rw [heq]; simp))
    · next c2 rest2 hne2 heq =>
      injection heq with h1 h2
      subst h1; subst h2
      rw [ih fun d hd => h d (List.mem_cons_of_mem _ hd)]
    · next heq => exact absurd heq (by simp)
  | case3 => rfl

theorem replaceAmp_no_amp (l : List Char) (h : ∀ c ∈ l, c ≠ '&') : replaceAmp l = l := by
  induction l using replaceAmp.induct with
  | case1 rest ih => exact absurd rfl (h '&' (by simp))
  | case2 c rest hne ih =>
    rw [replaceAmp.eq_def]
    split
    · next heq => exact absurd rfl (h '&' (by rw [heq]; simp))
    · next c2 rest2 hne2 heq =>
      injection heq with h1 h2
      subst h1; subst h2
      rw [ih fun d hd => h d (List.mem_cons_of_mem _ hd)]
    · next heq => exact absurd heq (by simp)
  | case3 => rfl

theorem replaceLt_no_amp (l : List Char) (h : ∀ c ∈ l, c ≠ '&') : replaceLt l = l := by
  induction l using replaceLt.induct with
  | case1 rest ih => exact absurd rfl (h '&' (by simp))
  | case2 c rest hne ih =>
    rw [replaceLt.eq_def]
    split
    · next heq => exact absurd rfl (h '&' (by rw [heq]; simp))
    · next c2 rest2 hne2 heq =>
      injection heq with h1 h2
      subst h1; subst h2
      rw [ih fun d hd => h d (List.mem_cons_of_mem _ hd)]
    · next heq => exact absurd heq (by simp)
  | case3 => rfl

theorem replaceGt_no_amp (l : List Char) (h : ∀ c ∈ l, c ≠ '&') : replaceGt l = l := by
  induction l using replaceGt.induct with
  | case1 rest ih => exact absurd rfl (h '&' (by simp))
  | case2 c rest hne ih =>
    rw [replaceGt.eq_def]
    split
    · next heq => exact absurd rfl (h '&' (by rw [heq]; simp))
    · next c2 rest2 hne2 heq =>
      injection heq with h1 h2
      subst h1; subst h2
      rw [ih fun d hd => h d (List.mem_cons_of_mem _ hd)]
    · next heq => exact absurd heq (by simp)
  | case3 => rfl

theorem replaceQuot_amp_hash (l : List Char) (h : ∀ c ∈ l, c ≠ '&') :
    replaceQuot ('&' :: '#' :: l) = '&' :: '#' :: l := by
  rw [replaceQuot.eq_def]
  split
  · next heq => simp at heq
  · next c2 rest2 hne2 heq =>
    injection heq with h1 h2
    subst h1; subst h2
    rw [replaceQuot_no_amp ('#' :: l) ?_]
    intro d hd
    rcases List.mem_cons.mp hd with rfl | hd'
    · decide
    · exact h d hd'
  · next heq => exact absurd heq (by simp)

theorem replaceAmp_amp_hash (l : List Char) (h : ∀ c ∈ l, c ≠ '&') :
    replaceAmp ('&' :: '#' :: l) = '&' :: '#' :: l := by
  rw [replaceAmp.eq_def]
  split
  · next heq => simp at heq
  · next c2 rest2 hne2 heq =>
    injection heq with h1 h2
    subst h1; subst h2
    rw [replaceAmp_no_amp ('#' :: l) ?_]
    intro d hd
    rcases List.mem_cons.mp hd with rfl | hd'
    · decide
    · exact h d hd'
  · next heq => exact absurd heq (by simp)

theorem replaceLt_amp_hash (l : List Char) (h : ∀ c ∈ l, c ≠ '&') :
    replaceLt ('&' :: '#' :: l) = '&' :: '#' :: l := by
  rw [replaceLt.eq_def]
  split
  · next heq => simp at heq
  · next c2 rest2 hne2 heq =>
    injection heq with h1 h2
    subst h1; subst h2
    rw [replaceLt_no_amp ('#' :: l) ?_]
    intro d hd
    rcases List.mem_cons.mp hd with rfl | hd'
    · decide
    · exact h d hd'
  · next heq => exact absurd heq (by simp)

theorem replaceGt_amp_hash (l : List Char) (h : ∀ c ∈ l, c ≠ '&') :
    replaceGt ('&' :: '#' :: l) = '&' :: '#' :: l := by
  rw [replaceGt.eq_def]
  split
  · next heq => simp at heq
  · next c2 rest2 hne2 heq =>
    injection heq with h1 h2
    subst h1; subst h2
    rw [replaceGt_no_amp ('#' :: l) ?_]
    intro d hd
    rcases List.mem_cons.mp hd with rfl | hd'
    · decide
    · exact h d hd'
  · next heq => exact absurd heq (by simp)

theorem replaceX27_amp_hash_nox (l : List Char) (h : ∀ c ∈ l, c ≠ '&')
    (hx : l.head? ≠ some 'x') :
    replaceX27 ('&' :: '#' :: l) = '&' :: '#' :: l := by
  rw [replaceX27.eq_def]
  split
  · next heq =>
    injection heq with h1 h2
    injection h2 with h3 h4
    exact absurd (by rw [h4]; rfl) hx
  · next c2 rest2 hne2 heq =>
    injection heq with h1 h2
    subst h1; subst h2
    rw [replaceX27_no_amp ('#' :: l) ?_]
    intro d hd
    rcases List.mem_cons.mp hd with rfl | hd'
    · decide
    · exact h d hd'
  · next heq => exact absurd heq (by simp)

theorem replaceX2F_amp_hash_nox (l : List Char) (h : ∀ c ∈ l, c ≠ '&')
    (hx : l.head? ≠ some 'x') :
    replaceX2F ('&' :: '#' :: l) = '&' :: '#' :: l := by
  rw [replaceX2F.eq_def]
  split
  · next heq =>
    injection heq with h1 h2
    injection h2 with h3 h4
    exact absurd (by rw [h4]; rfl) hx
  · next c2 rest2 hne2 heq =>
    injection heq with h1 h2
    subst h1; subst h2
    rw [replaceX2F_no_amp ('#' :: l) ?_]
    intro d hd
    rcases List.mem_cons.mp hd with rfl | hd'
    · decide
    · exact h d hd'
  · next heq => exact absurd heq (by simp)

theorem dec_tail_no_amp (ds : List Char) (hds : ∀ c ∈ ds, c.isDigit = true) :
    ∀ c ∈ ds ++ [';'], c ≠ '&' := by
  intro c hc
  rcases List.mem_append.mp hc with h | h
  · exact ne_of_digit_of_not c '&' (hds c h) (by decide)
  · simp only [List.mem_singleton] at h
    subst h; decide

theorem hex_tail_no_amp (hs : List Char) (hhs : ∀ c ∈ hs, isHexDigit c = true) :
    ∀ c ∈ hs ++ [';'], c ≠ '&' := by
  intro c hc
  rcases List.mem_append.mp hc with h | h
  · exact ne_of_hexDigit_of_not c '&' (hhs c h) (by decide)
  · simp only [List.mem_singleton] at h
    subst h; decide

theorem replaceX27_amp_hash_x (hs : List Char) (hhs : ∀ c ∈ hs, isHexDigit c = true)
    (hne27 : hs ≠ ['2', '7']) :
    replaceX27 ('&' :: '#' :: 'x' :: (hs ++ [';'])) = '&' :: '#' :: 'x' :: (hs ++ [';']) := by
  rw [replaceX27.eq_def]
  split
  · next heq =>
    injection heq with h1 h2
    injection h2 with h3 h4
    injection h4 with h5 h6
    -- `hs ++ [;]` would have to read `27;…`, forcing `hs = [2,7]` or a `;`
    -- inside the hexadecimal digits
    rcases hs with _ | ⟨a, _ | ⟨b, hs'⟩⟩
    · simp at h6
    · simp at h6
    · rw [List.cons_append, List.cons_append] at h6
      injection h6 with ha h7
      injection h7 with hb h8
      cases hs' with
      | nil =>
        subst ha; subst hb
        exact absurd rfl hne27
      | cons e hs'' =>
        rw [List.cons_append] at h8
        injection h8 with he
        have := hhs e (by simp)
        rw [he] at this
        exact absurd this (by decide)
  · next c2 rest2 hne2 heq =>
    injection heq with h1 h2
    subst h1; subst h2
    rw [replaceX27_no_amp ('#' :: 'x' :: (hs ++ [';'])) ?_]
    intro d hd
    rcases List.mem_cons.mp hd with rfl | hd'
    · decide
    · rcases List.mem_cons.mp hd' with rfl | hd''
      · decide
      · exact hex_tail_no_amp hs hhs d hd''
  · next heq => exact absurd heq (by simp)

theorem replaceX2F_amp_hash_x (hs : List Char) (hhs : ∀ c ∈ hs, isHexDigit c = true)
    (hne2F : hs ≠ ['2', 'F']) :
    replaceX2F ('&' :: '#' :: 'x' :: (hs ++ [';'])) = '&' :: '#' :: 'x' :: (hs ++ [';']) := by
  rw [replaceX2F.eq_def]
  split
  · next heq =>
    injection heq with h1 h2
    injection h2 with h3 h4
    injection h4 with h5 h6
    rcases hs with _ | ⟨a, _ | ⟨b, hs'⟩⟩
    · simp at h6
    · simp at h6
    · rw [List.cons_append, List.cons_append] at h6
      injection h6 with ha h7
      injection h7 with hb h8
      cases hs' with
      | nil =>
        subst ha; subst hb
        exact absurd rfl hne2F
      | cons e hs'' =>
        rw [List.cons_append] at h8
        injection h8 with he
        have := hhs e (by simp)
        rw [he] at this
        exact absurd this (by decide)
  · next c2 rest2 hne2 heq =>
    injection heq with h1 h2
    subst h1; subst h2
    rw [replaceX2F_no_amp ('#' :: 'x' :: (hs ++ [';'])) ?_]
    intro d hd
    rcases List.mem_cons.mp hd with rfl | hd'
    · decide
    · rcases List.mem_cons.mp hd' with rfl | hd''
      · decide
      · exact hex_tail_no_amp hs hhs d hd''
  · next heq => exact absurd heq (by simp)

/-! ## Scanner lemmas for the generic numeric escapes -/

theorem decScan_no_amp (l : List Char) (h : ∀ c ∈ l, c ≠ '&') :
    decScan .normal l = l := by
  induction l with
  | nil => rfl
  | cons c rest ih =>
    rw [decScan, if_neg (h c (List.mem_cons_self c rest))]
    rw [ih fun d hd => h d (List.mem_cons_of_mem _ hd)]

theorem hexScan_no_amp (l : List Char) (h : ∀ c ∈ l, c ≠ '&') :
    hexScan .normal l = l := by
  induction l with
  | nil => rfl
  | cons c rest ih =>
    rw [hexScan, if_neg (h c (List.mem_cons_self c rest))]
    rw [ih fun d hd => h d (List.mem_cons_of_mem _ hd)]

/-- Consuming a digit run then `;` from the pending-`&#` state emits exactly
the `String.fromCharCode` of the accumulated digits and scans on. -/
theorem decScan_consume (ds : List Char) (hds : ∀ c ∈ ds, c.isDigit = true)
    (rest : List Char) :
    ∀ acc : List Char, acc ++ ds ≠ [] →
      decScan (.ampHash acc) (ds ++ ';' :: rest) =
        fromCharCode (digitsVal (acc ++ ds)) :: decScan .normal rest := by
  induction ds with
  | nil =>
    intro acc hne
    rw [List.append_nil] at hne
    rw [List.nil_append, decScan]
    rw [if_neg (by decide : ¬(';' : Char).isDigit = true)]
    rw [if_pos (by simp [hne])]
    rw [List.append_nil]
  | cons d ds' ih =>
    intro acc hne
    rw [List.cons_append, decScan, if_pos (hds d (List.mem_cons_self d ds'))]
    rw [ih (fun c hc => hds c (List.mem_cons_of_mem _ hc)) (acc ++ [d]) (by simp)]
    rw [List.append_assoc, List.singleton_append]

/-- Consuming a hexadecimal digit run then `;` from the pending-`&#x` state
emits exactly the `String.fromCharCode` of the parsed digits and scans on. -/
theorem hexScan_consume (hs : List Char) (hhs : ∀ c ∈ hs, isHexDigit c = true)
    (rest : List Char) :
    ∀ acc : List Char, acc ++ hs ≠ [] →
      hexScan (.ampHashX acc) (hs ++ ';' :: rest) =
        fromCharCode (hexVal (acc ++ hs)) :: hexScan .normal rest := by
  induction hs with
  | nil =>
    intro acc hne
    rw [List.append_nil] at hne
    rw [List.nil_append, hexScan]
    rw [if_neg (by decide : ¬isHexDigit ';' = true)]
    rw [if_pos (by simp [hne])]
    rw [List.append_nil]
  | cons d hs' ih =>
    intro acc hne
    rw [List.cons_append, hexScan, if_pos (hhs d (List.mem_cons_self d hs'))]
    rw [ih (fun c hc => hhs c (List.mem_cons_of_mem _ hc)) (acc ++ [d]) (by simp)]
    rw [List.append_assoc, List.singleton_append]

/-- The decimal machine leaves `&#x…` untouched: `x` after `&#` aborts the
pending match and the remainder holds no `&`. -/
theorem decScan_amp_hash_x (l : List Char) (h : ∀ c ∈ l, c ≠ '&') :
    decScan .normal ('&' :: '#' :: 'x' :: l) = '&' :: '#' :: 'x' :: l := by
  show '&' :: '#' :: 'x' :: decScan .normal l = _
  rw [decScan_no_amp l h]

/-- The hexadecimal machine acts as the identity on any single character. -/
theorem hexScan_single (c : Char) : hexScan .normal [c] = [c] := by
  by_cases hc : c = '&'
  · subst hc; rfl
  · rw [hexScan, if_neg hc]
    rfl

/-! ## Distribution of the replacements over an ampersand-free prefix

Every pattern starts with `&`, so no match can begin inside an
ampersand-free prefix: the scanners copy such a prefix verbatim. -/

theorem replaceX27_append_no_amp (pre l : List Char) (h : ∀ c ∈ pre, c ≠ '&') :
    replaceX27 (pre ++ l) = pre ++ replaceX27 l := by
  induction pre with
  | nil => rfl
  | cons c pre' ih =>
    rw [List.cons_append, replaceX27.eq_def]
    split
    · next heq =>
      exact absurd (List.cons.inj heq).1 (h c (List.mem_cons_self c pre'))
    · next c2 rest2 hne2 heq =>
      injection heq with h1 h2
      subst h1; subst h2
      rw [ih fun d hd => h d (List.mem_cons_of_mem _ hd), List.cons_append]
    · next heq => exact absurd heq (by simp)

theorem replaceX2F_append_no_amp (pre l : List Char) (h : ∀ c ∈ pre, c ≠ '&') :
    replaceX2F (pre ++ l) = pre ++ replaceX2F l := by
  induction pre with
  | nil => rfl
  | cons c pre' ih =>
    rw [List.cons_append, replaceX2F.eq_def]
    split
    · next heq =>
      exact absurd (List.cons.inj heq).1 (h c (List.mem_cons_self c pre'))
    · next c2 rest2 hne2 heq =>
      injection heq with h1 h2
      subst h1; subst h2
      rw [ih fun d hd => h d (List.mem_cons_of_mem _ hd), List.cons_append]
    · next heq => exact absurd heq (by simp)

theorem replaceQuot_append_no_amp (pre l : List Char) (h : ∀ c ∈ pre, c ≠ '&') :
    replaceQuot (pre ++ l) = pre ++ replaceQuot l := by
  induction pre with
  | nil => rfl
  | cons c pre' ih =>
    rw [List.cons_append, replaceQuot.eq_def]
    split
    · next heq =>
      exact absurd (List.cons.inj heq).1 (h c (List.mem_cons_self c pre'))
    · next c2 rest2 hne2 heq =>
      injection heq with h1 h2
      subst h1; subst h2
      rw [ih fun d hd => h d (List.mem_cons_of_mem _ hd), List.cons_append]
    · next heq => exact absurd heq (by simp)

theorem replaceAmp_append_no_amp (pre l : List Char) (h : ∀ c ∈ pre, c ≠ '&') :
    replaceAmp (pre ++ l) = pre ++ replaceAmp l := by
  induction pre with
  | nil => rfl
  | cons c pre' ih =>
    rw [List.cons_append, replaceAmp.eq_def]
    split
    · next heq =>
      exact absurd (List.cons.inj heq).1 (h c (List.mem_cons_self c pre'))
    · next c2 rest2 hne2 heq =>
      injection heq with h1 h2
      subst h1; subst h2
      rw [ih fun d hd => h d (List.mem_cons_of_mem _ hd), List.cons_append]
    · next heq => exact absurd heq (by simp)

theorem replaceLt_append_no_amp (pre l : List Char) (h : ∀ c ∈ pre, c ≠ '&') :
    replaceLt (pre ++ l) = pre ++ replaceLt l := by
  induction pre with
  | nil => rfl
  | cons c pre' ih =>
    rw [List.cons_append, replaceLt.eq_def]
    split
    · next heq =>
      exact absurd (List.cons.inj heq).1 (h c (List.mem_cons_self c pre'))
    · next c2 rest2 hne2 heq =>
      injection heq with h1 h2
      subst h1; subst h2
      rw [ih fun d hd => h d (List.mem_cons_of_mem _ hd), List.cons_append]
    · next heq => exact absurd heq (by simp)

theorem replaceGt_append_no_amp (pre l : List Char) (h : ∀ c ∈ pre, c ≠ '&') :
    replaceGt (pre ++ l) = pre ++ replaceGt l := by
  induction pre with
  | nil => rfl
  | cons c pre' ih =>
    rw [List.cons_append, replaceGt.eq_def]
    split
    · next heq =>
      exact absurd (List.cons.inj heq).1 (h c (List.mem_cons_self c pre'))
    · next c2 rest2 hne2 heq =>
      injection heq with h1 h2
      subst h1; subst h2
      rw [ih fun d hd => h d (List.mem_cons_of_mem _ hd), List.cons_append]
    · next heq => exact absurd heq (by simp)

theorem decScan_append_no_amp (pre l : List Char) (h : ∀ c ∈ pre, c ≠ '&') :
    decScan .normal (pre ++ l) = pre ++ decScan .normal l := by
  induction pre with
  | nil => rfl
  | cons c pre' ih =>
    rw [List.cons_append, decScan, if_neg (h c (List.mem_cons_self c pre'))]
    rw [ih fun d hd => h d (List.mem_cons_of_mem _ hd), List.cons_append]

theorem hexScan_append_no_amp (pre l : List Char) (h : ∀ c ∈ pre, c ≠ '&') :
    hexScan .normal (pre ++ l) = pre ++ hexScan .normal l := by
  induction pre with
  | nil => rfl
  | cons c pre' ih =>
    rw [List.cons_append, hexScan, if_neg (h c (List.mem_cons_self c pre'))]
    rw [ih fun d hd => h d (List.mem_cons_of_mem _ hd), List.cons_append]

/-! ## Claim C10: generic numeric escapes truncate to one UTF-16 code unit -/

/-- Claim C10: for every numeric escape decoded by the Text Normalizer, the
substituted character is the single UTF-16 code unit whose value is the
escape's number reduced modulo `2^16` (`String.fromCharCode` semantics): a
decimal escape `&#N;` or hex escape `&#xH;` with value at or above `0x10000`
does not yield the intended supplementary-plane character but the truncated
code unit.  (The two hexadecimal digit strings `27` and `2F` are already
consumed — with the same resulting character — by the fixed literal
replacements that run first, and code-unit values in the surrogate range are
outside this embedding's `Char` model, so they are excluded here.) -/
theorem numeric_escapes_truncate_mod_2_16 :
    (∀ ds : List Char, ds ≠ [] → (∀ c ∈ ds, c.isDigit = true) →
      Nat.isValidChar (digitsVal ds % 65536) →
      decodeHtmlEntities (String.mk ('&' :: '#' :: (ds ++ [';']))) =
        String.mk [Char.ofNat (digitsVal ds % 65536)]) ∧
    (∀ hs : List Char, hs ≠ [] → (∀ c ∈ hs, isHexDigit c = true) →
      hs ≠ ['2', '7'] → hs ≠ ['2', 'F'] →
      Nat.isValidChar (hexVal hs % 65536) →
      decodeHtmlEntities (String.mk ('&' :: '#' :: 'x' :: (hs ++ [';']))) =
        String.mk [Char.ofNat (hexVal hs % 65536)]) := by
  constructor
  · intro ds hne hds _hvalid
    unfold decodeHtmlEntities
    have hnoamp := dec_tail_no_amp ds hds
    have hheadx : (ds ++ [';']).head? ≠ some 'x' := by
      cases ds with
      | nil => exact absurd rfl hne
      | cons d ds' =>
        rw [List.cons_append, List.head?_cons]
        intro heq
        injection heq with hd
        exact ne_of_digit_of_not d 'x' (hds d (by simp)) (by decide) hd
    rw [show (String.mk ('&' :: '#' :: (ds ++ [';']))).data =
      '&' :: '#' :: (ds ++ [';']) from rfl]
    rw [replaceX27_amp_hash_nox _ hnoamp hheadx,
      replaceX2F_amp_hash_nox _ hnoamp hheadx,
      replaceQuot_amp_hash _ hnoamp,
      replaceAmp_amp_hash _ hnoamp,
      replaceLt_amp_hash _ hnoamp,
      replaceGt_amp_hash _ hnoamp]
    rw [show decScan .normal ('&' :: '#' :: (ds ++ [';'])) =
      decScan (.ampHash []) (ds ++ [';']) from rfl]
    rw [show ds ++ [';'] = ds ++ ';' :: [] from rfl]
    rw [decScan_consume ds hds [] [] (by simpa using hne)]
    rw [show decScan DecState.normal [] = [] from rfl]
    rw [hexScan_single]
    rfl
  · intro hs hne hhs hne27 hne2F _hvalid
    unfold decodeHtmlEntities
    have hnoamp_tail := hex_tail_no_amp hs hhs
    have hnoamp : ∀ c ∈ 'x' :: (hs ++ [';']), c ≠ '&' := by
      intro c hc
      rcases List.mem_cons.mp hc with rfl | hc'
      · decide
      · exact hnoamp_tail c hc'
    rw [show (String.mk ('&' :: '#' :: 'x' :: (hs ++ [';']))).data =
      '&' :: '#' :: 'x' :: (hs ++ [';']) from rfl]
    rw [replaceX27_amp_hash_x hs hhs hne27,
      replaceX2F_amp_hash_x hs hhs hne2F,
      replaceQuot_amp_hash _ hnoamp,
      replaceAmp_amp_hash _ hnoamp,
      replaceLt_amp_hash _ hnoamp,
      replaceGt_amp_hash _ hnoamp]
    rw [decScan_amp_hash_x _ hnoamp_tail]
    rw [show hexScan .normal ('&' :: '#' :: 'x' :: (hs ++ [';'])) =
      hexScan (.ampHashX []) (hs ++ [';']) from rfl]
    rw [show hs ++ [';'] = hs ++ ';' :: [] from rfl]
    rw [hexScan_consume hs hhs [] [] (by simpa using hne)]
    rw [show hexScan HexState.normal [] = [] from rfl]
    rfl

/-- Witness for C10: the supplementary-plane escapes `&#128512;` and
`&#x1F600;` (U+1F600) decode to the single truncated code unit
`0x1F600 % 0x10000 = 0xF600 = 62976`, not to U+1F600. -/
theorem numeric_escapes_truncate_mod_2_16_witness :
    decodeHtmlEntities (String.mk ('&' :: '#' :: ("128512".data ++ [';']))) =
      String.mk [Char.ofNat 62976] ∧
    decodeHtmlEntities (String.mk ('&' :: '#' :: 'x' :: ("1F600".data ++ [';']))) =
      String.mk [Char.ofNat 62976] :=
  ⟨numeric_escapes_truncate_mod_2_16.1 "128512".data (by decide) (by decide) (by decide),
   numeric_escapes_truncate_mod_2_16.2 "1F600".data (by decide) (by decide) (by decide)
     (by decide) (by decide)⟩

/-! ## Claim C8: `&amp;#39;` and the decode order -/

/-- Counterexample to claim C8 as stated: the Text Normalizer double-decodes
`&amp;#39;` — the output is the one-character string with code 39 (an
apostrophe), not the literal text `&#39;`. -/
theorem amp_39_not_single_decoded :
    decodeHtmlEntities "&amp;#39;" = String.mk [Char.ofNat 39] ∧
    String.mk [Char.ofNat 39] ≠ "&#39;" := by
  constructor
  · decide
  · decide

/-- Amended claim C8: for every input string containing `&amp;#39;` with no
further ampersand around the occurrence, the Text Normalizer DOES
double-decode that occurrence into a literal apostrophe: the `&amp;`
replacement first yields `&#39;`, and the generic decimal-escape
replacement, which runs afterwards, decodes that to the character with code
39.  (Named entities are not affected: their replacements run before
`&amp;`, so `&amp;quot;` single-decodes to `&quot;`.) -/
theorem amp_39_double_decodes :
    (∀ pre suf : List Char, (∀ c ∈ pre, c ≠ '&') → (∀ c ∈ suf, c ≠ '&') →
      decodeHtmlEntities
        (String.mk (pre ++ ('&' :: 'a' :: 'm' :: 'p' :: ';' :: '#' :: '3' :: '9' :: ';' :: suf))) =
        String.mk (pre ++ (Char.ofNat 39 :: suf))) ∧
    decodeHtmlEntities "&amp;#39;" = String.mk [Char.ofNat 39] ∧
    decodeHtmlEntities "a&amp;#39;b" = String.mk ['a', Char.ofNat 39, 'b'] ∧
    decodeHtmlEntities "&amp;quot;" = "&quot;" := by
  refine ⟨fun pre suf hpre hsuf => ?_, by decide, by decide, by decide⟩
  unfold decodeHtmlEntities
  have hmid : ∀ c ∈ ('a' :: 'm' :: 'p' :: ';' :: '#' :: '3' :: '9' :: ';' :: suf), c ≠ '&' := by
    intro c hc
    rcases List.mem_append.mp (show c ∈ ['a', 'm', 'p', ';', '#', '3', '9', ';'] ++ suf by
      simpa using hc) with h | h
    · fin_cases h <;> decide
    · exact hsuf c h
  have hmid2 : ∀ c ∈ ('#' :: '3' :: '9' :: ';' :: suf), c ≠ '&' := by
    intro c hc
    rcases List.mem_append.mp (show c ∈ ['#', '3', '9', ';'] ++ suf by simpa using hc) with
      h | h
    · fin_cases h <;> decide
    · exact hsuf c h
  rw [show (String.mk (pre ++
      ('&' :: 'a' :: 'm' :: 'p' :: ';' :: '#' :: '3' :: '9' :: ';' :: suf))).data = pre ++
      ('&' :: 'a' :: 'm' :: 'p' :: ';' :: '#' :: '3' :: '9' :: ';' :: suf) from rfl]
  rw [replaceX27_append_no_amp pre _ hpre]
  rw [show replaceX27 ('&' :: 'a' :: 'm' :: 'p' :: ';' :: '#' :: '3' :: '9' :: ';' :: suf) =
    '&' :: replaceX27 ('a' :: 'm' :: 'p' :: ';' :: '#' :: '3' :: '9' :: ';' :: suf) from rfl]
  rw [replaceX27_no_amp _ hmid]
  rw [replaceX2F_append_no_amp pre _ hpre]
  rw [show replaceX2F ('&' :: 'a' :: 'm' :: 'p' :: ';' :: '#' :: '3' :: '9' :: ';' :: suf) =
    '&' :: replaceX2F ('a' :: 'm' :: 'p' :: ';' :: '#' :: '3' :: '9' :: ';' :: suf) from rfl]
  rw [replaceX2F_no_amp _ hmid]
  rw [replaceQuot_append_no_amp pre _ hpre]
  rw [show replaceQuot ('&' :: 'a' :: 'm' :: 'p' :: ';' :: '#' :: '3' :: '9' :: ';' :: suf) =
    '&' :: replaceQuot ('a' :: 'm' :: 'p' :: ';' :: '#' :: '3' :: '9' :: ';' :: suf) from rfl]
  rw [replaceQuot_no_amp _ hmid]
  rw [replaceAmp_append_no_amp pre _ hpre]
  rw [show replaceAmp ('&' :: 'a' :: 'm' :: 'p' :: ';' :: '#' :: '3' :: '9' :: ';' :: suf) =
    '&' :: replaceAmp ('#' :: '3' :: '9' :: ';' :: suf) from rfl]
  rw [replaceAmp_no_amp _ hmid2]
  rw [replaceLt_append_no_amp pre _ hpre]
  rw [show replaceLt ('&' :: '#' :: '3' :: '9' :: ';' :: suf) =
    '&' :: replaceLt ('#' :: '3' :: '9' :: ';' :: suf) from rfl]
  rw [replaceLt_no_amp _ hmid2]
  rw [replaceGt_append_no_amp pre _ hpre]
  rw [show replaceGt ('&' :: '#' :: '3' :: '9' :: ';' :: suf) =
    '&' :: replaceGt ('#' :: '3' :: '9' :: ';' :: suf) from rfl]
  rw [replaceGt_no_amp _ hmid2]
  rw [decScan_append_no_amp pre _ hpre]
  rw [show decScan .normal ('&' :: '#' :: '3' :: '9' :: ';' :: suf) =
    decScan (.ampHash []) ('3' :: '9' :: ';' :: suf) from rfl]
  rw [show ('3' :: '9' :: ';' :: suf : List Char) = ['3', '9'] ++ ';' :: suf from rfl]
  rw [decScan_consume ['3', '9'] (by decide) suf [] (by simp)]
  rw [decScan_no_amp suf hsuf]
  rw [hexScan_append_no_amp pre _ hpre]
  rw [show hexScan .normal (fromCharCode (digitsVal ([] ++ ['3', '9'])) :: suf) =
    fromCharCode (digitsVal ([] ++ ['3', '9'])) :: hexScan .normal suf from rfl]
  rw [hexScan_no_amp suf hsuf]
  rfl

/-- Witness for the amended C8 at a concrete embedding: `xy&amp;#39;z`
decodes to `xy'z`. -/
theorem amp_39_double_decodes_witness :
    decodeHtmlEntities
      (String.mk (['x', 'y'] ++
        ('&' :: 'a' :: 'm' :: 'p' :: ';' :: '#' :: '3' :: '9' :: ';' :: ['z']))) =
      String.mk (['x', 'y'] ++ (Char.ofNat 39 :: ['z'])) :=
  amp_39_double_decodes.1 ['x', 'y'] ['z'] (by decide) (by decide)

end Discussing
